import Mathlib

/-!
Shallow embedding of the scoring / lifecycle / aggregation core of the
prediction-contest backend, together with proofs of the specification
claims about it.

Python integers are modelled as `ℤ` (counters that are never negative as
`ℕ`), Python floats as `ℚ` with an explicit round-half-to-even rounding
to two decimal places, Python dicts `{player_id: rank}` as functions
`ℤ → Option ℤ`, and the database session as explicit state passing where
only `commit` publishes the pending state.
-/

/-! ### 4.1 Scoring function (`app/core/scoring.py`, `calculate_forecast_points`) -/

/-- One iteration of the scoring loop of `calculate_forecast_points`:
given the running `(total_points, diffs, exact_hits)` accumulator and the
enumerated slot `(i, player_id)`, performs the dict lookup and the
diff-zero branch exactly as the Python loop body does. -/
def scoreStep (slots_count : ℕ) (results_data : ℤ → Option ℤ)
    (acc : ℤ × List ℤ × ℕ) (p : ℕ × ℤ) : ℤ × List ℤ × ℕ :=
  let predicted_rank : ℤ := (p.1 : ℤ) + 1
  match results_data p.2 with
  | some actual_rank =>
      let diff := |predicted_rank - actual_rank|
      if diff = 0 then (acc.1 + 5, acc.2.1 ++ [diff], acc.2.2 + 1)
      else (acc.1 + 1, acc.2.1 ++ [diff], acc.2.2)
  | none => (acc.1 + 0, acc.2.1 ++ [(slots_count : ℤ)], acc.2.2)

/-- Embedding of `calculate_forecast_points(prediction_data, results_data)`:
folds the loop body over the enumerated prediction slots and then applies
the all-exact bonus check `exact_hits == slots_count and slots_count > 0`. -/
def calculate_forecast_points (prediction_data : List ℤ)
    (results_data : ℤ → Option ℤ) : ℤ × List ℤ × ℕ :=
  let slots_count := prediction_data.length
  let r := prediction_data.enum.foldl (scoreStep slots_count results_data) (0, [], 0)
  if r.2.2 = slots_count ∧ 0 < slots_count then (r.1 + 15, r.2.1, r.2.2) else r

/-! Closed-form per-slot quantities, written from the specification's
per-slot description (slot `i` predicts rank `i+1`; present competitor:
error `|predicted − actual|`, five points when the error is zero else one
point; absent competitor: zero points and sentinel error `N`). -/

/-- Points awarded by one slot `(i, player_id)` per the per-slot rule. -/
def slot_points (results_data : ℤ → Option ℤ) (p : ℕ × ℤ) : ℤ :=
  match results_data p.2 with
  | some actual_rank => if |((p.1 : ℤ) + 1) - actual_rank| = 0 then 5 else 1
  | none => 0

/-- Error recorded by one slot: `|predicted − actual|` when the competitor
placed, the sentinel `N` (the slot count) when it did not. -/
def slot_error (slots_count : ℕ) (results_data : ℤ → Option ℤ) (p : ℕ × ℤ) : ℤ :=
  match results_data p.2 with
  | some actual_rank => |((p.1 : ℤ) + 1) - actual_rank|
  | none => (slots_count : ℤ)

/-- Whether one slot is an exact hit (the competitor placed with error 0). -/
def slot_exact (results_data : ℤ → Option ℤ) (p : ℕ × ℤ) : Bool :=
  match results_data p.2 with
  | some actual_rank => |((p.1 : ℤ) + 1) - actual_rank| = 0
  | none => false

/-! ### 4.2 Statistics aggregator (`app/core/scoring.py`, `calculate_new_stats`) -/

/-- Python's `round(x, 2)`: round to two decimal places, ties to even
(banker's rounding), modelled exactly over `ℚ`. -/
def round2 (q : ℚ) : ℚ :=
  let x := q * 100
  let f : ℤ := ⌊x⌋
  let frac := x - f
  let r : ℤ :=
    if frac < 1 / 2 then f
    else if 1 / 2 < frac then f + 1
    else if f % 2 = 0 then f else f + 1
  (r : ℚ) / 100

/-- Embedding of `calculate_new_stats`: adds the new points to the running
total and rebuilds the running error/exact-hit sums from the cached rounded
averages before re-deriving and re-rounding them. -/
def calculate_new_stats (old_total_points : ℤ) (old_accuracy : ℚ) (old_mae : ℚ)
    (total_slots_before : ℕ) (new_forecast_points : ℤ)
    (new_forecast_diffs : List ℤ) (new_forecast_exact_hits : ℕ) :
    ℤ × ℚ × ℚ :=
  let new_total_points := old_total_points + new_forecast_points
  let new_slots_count := new_forecast_diffs.length
  let sum_of_errors_before := old_mae * (total_slots_before : ℚ)
  let sum_of_new_errors : ℚ := ((new_forecast_diffs.sum : ℤ) : ℚ)
  let total_slots_after := total_slots_before + new_slots_count
  let new_mae : ℚ :=
    if 0 < total_slots_after
    then (sum_of_errors_before + sum_of_new_errors) / (total_slots_after : ℚ)
    else 0
  let total_exact_hits_before := (old_accuracy / 100) * (total_slots_before : ℚ)
  let total_exact_hits_after :=
    total_exact_hits_before + (new_forecast_exact_hits : ℚ)
  let new_accuracy : ℚ :=
    if 0 < total_slots_after
    then (total_exact_hits_after / (total_slots_after : ℚ)) * 100
    else 0
  (new_total_points, round2 new_accuracy, round2 new_mae)

/-! ### Season boundary functions (`app/core/seasonal.py`) -/

/-- The anchor `datetime.date(2024, 12, 30)` as a proleptic-Gregorian ordinal day
number (dates are modelled as their `toordinal()` integers, so a
`timedelta` of `k` days is the integer `k`). -/
def FIRST_SEASON_START : ℤ := 739250

/-- Embedding of `get_season_dates`: Monday start and Sunday end of the
given season's week. -/
def get_season_dates (season_number : ℤ) : ℤ × ℤ :=
  let start_date := FIRST_SEASON_START + 7 * (season_number - 1)
  (start_date, start_date + 6)

/-- Embedding of `get_season_number`: `0` before the anchor, otherwise
`(date − anchor).days // 7 + 1` (the operands are non-negative, so Python
floor division agrees with truncating division here). -/
def get_season_number (date_obj : ℤ) : ℤ :=
  if date_obj < FIRST_SEASON_START then 0
  else (date_obj - FIRST_SEASON_START) / 7 + 1

/-! ### 4.5 Streak calculator (`app/utils/stats_calculator.py`,
`recalculate_user_streaks`) -/

/-- The streak loop body on the membership bit of one tournament:
`temp_streak += 1` on participation, otherwise fold `temp_streak` into
`max_streak` and reset. State is `(temp_streak, max_streak)`. -/
def streakStepB (s : ℕ × ℕ) (b : Bool) : ℕ × ℕ :=
  if b then (s.1 + 1, s.2) else (0, if s.1 > s.2 then s.1 else s.2)

/-- Embedding of the pure core of `recalculate_user_streaks`: the
tournaments ordered by `(date, id)` ascending are given as their id list,
the user's forecast set as its membership test; returns
`(current_streak, max_streak)` after the final post-loop max check. -/
def recalculate_user_streaks (tournament_ids : List ℤ)
    (user_forecast_t_ids : ℤ → Bool) : ℕ × ℕ :=
  let s := tournament_ids.foldl
    (fun s tid => streakStepB s (user_forecast_t_ids tid)) (0, 0)
  (s.1, if s.1 > s.2 then s.1 else s.2)

/-- Specification of the trailing streak: `c` is the length of the run of
consecutive participations ending at the last event of the timeline. -/
def trailing_ok (l : List Bool) (c : ℕ) : Prop :=
  List.replicate c true <:+ l ∧ ∀ n, List.replicate n true <:+ l → n ≤ c

/-- Specification of the maximum streak: `m` is the length of the longest
run of consecutive participations anywhere in the timeline. -/
def longest_ok (l : List Bool) (m : ℕ) : Prop :=
  List.replicate m true <:+: l ∧ ∀ n, List.replicate n true <:+: l → n ≤ m

/-! ### 4.3 Event lifecycle: finalize
(`app/handlers/tournament_management.py`, `cq_set_results_confirm`)

The database rows touched by finalize.  Integer columns read through a
Python `or 0` None-guard are modelled as `Option ℕ`; presentation-only
columns (balance, cached streak fields) are not touched by finalize and
are omitted. -/

/-- Row of the `users` table (the columns finalize reads or writes). -/
structure User where
  id : ℤ
  username : Option String
  full_name : String
  total_points : ℤ
  total_slots : Option ℕ
  tournaments_played : Option ℕ
  exact_guesses : Option ℕ
  perfect_tournaments : Option ℕ
  accuracy_rate : ℚ
  avg_error : ℚ
deriving DecidableEq

/-- Row of the `forecasts` table. -/
structure Forecast where
  id : ℤ
  user_id : ℤ
  tournament_id : ℤ
  prediction_data : List ℤ
  points_earned : Option ℤ
  created_at : ℤ
deriving DecidableEq

/-- The `TournamentStatus` enum. -/
inductive TournamentStatus where
  | DRAFT
  | OPEN
  | LIVE
  | FINISHED
deriving DecidableEq

/-- A tournament together with its loaded forecasts, each with its owning
user (`selectinload(Tournament.forecasts).selectinload(Forecast.user)`;
a forecast is unique per (user, tournament), so each row carries its own
user record). -/
structure Tournament where
  status : TournamentStatus
  results : Option (ℤ → Option ℤ)
  forecasts : List (Forecast × User)

/-- The per-forecast body of the finalize loop: score the forecast, write
`points_earned`, fold the result into the owning user's running statistics
and gamification counters exactly as the handler does. -/
def process_forecast (results_dict : ℤ → Option ℤ) (fu : Forecast × User) :
    Forecast × User :=
  let forecast := fu.1
  let user := fu.2
  let r := calculate_forecast_points forecast.prediction_data results_dict
  let points := r.1
  let diffs := r.2.1
  let exact_hits := r.2.2
  let total_slots_before := user.total_slots.getD 0
  let ns := calculate_new_stats user.total_points user.accuracy_rate
    user.avg_error total_slots_before points diffs exact_hits
  let slots_count := forecast.prediction_data.length
  ({ forecast with points_earned := some points },
   { user with
      total_points := ns.1,
      accuracy_rate := ns.2.1,
      avg_error := ns.2.2,
      total_slots := some (total_slots_before + slots_count),
      tournaments_played := some (user.tournaments_played.getD 0 + 1),
      exact_guesses := some (user.exact_guesses.getD 0 + exact_hits),
      perfect_tournaments :=
        if 0 < slots_count ∧ exact_hits = slots_count
        then some (user.perfect_tournaments.getD 0 + 1)
        else user.perfect_tournaments })

/-- The finalize loop over the event's forecasts inside the open session,
with fault injection: `faultAt = some k` raises an exception while scoring
the forecast at (0-based) position `k`, mirroring a store-level fault in
the middle of steps 2–4.  The error propagates out of the loop. -/
def process_loop (rd : ℤ → Option ℤ) (faultAt : Option ℕ) :
    ℕ → List (Forecast × User) → Except Unit (List (Forecast × User))
  | _, [] => Except.ok []
  | n, fu :: rest =>
      if faultAt = some n then Except.error ()
      else
        match process_loop rd faultAt (n + 1) rest with
        | Except.ok rest' => Except.ok (process_forecast rd fu :: rest')
        | Except.error e => Except.error e

/-- Embedding of the transactional core of `cq_set_results_confirm`: all
writes (status := FINISHED, results, scored forecasts, user statistics) are
buffered in the session and published only by `session.commit()`; the
`except` branch calls `session.rollback()`, so on any exception the stored
tournament is returned unchanged. -/
def cq_set_results_confirm (faultAt : Option ℕ) (t : Tournament)
    (rd : ℤ → Option ℤ) : Tournament :=
  match process_loop rd faultAt 0 t.forecasts with
  | Except.ok fus =>
      { t with
        status := TournamentStatus.FINISHED,
        results := some rd,
        forecasts := fus }
  | Except.error _ => t

/-- A minimal user row for concrete examples. -/
def exUser (i : ℤ) : User := ⟨i, none, "", 0, none, none, none, none, 0, 0⟩

/-- A minimal unscored forecast (id and creation time `i`) with its user. -/
def exFU (i : ℤ) : Forecast × User := (⟨i, i, 1, [1, 2], none, i⟩, exUser i)

/-- A Live tournament with five unscored forecasts. -/
def exTournament : Tournament :=
  ⟨TournamentStatus.LIVE, none, [exFU 1, exFU 2, exFU 3, exFU 4, exFU 5]⟩

/-! ### Operator-facing ranked summary after finalize -/

/-- The Python sort key of the admin summary:
`(f.points_earned or 0, -f.id)`, sorted with `reverse=True`. -/
def admin_sort_key (fu : Forecast × User) : ℤ × ℤ :=
  (fu.1.points_earned.getD 0, -fu.1.id)

/-- Descending lexicographic comparison on the admin sort key: `a` may
precede `b` iff `a`'s key is lexicographically ≥ `b`'s. -/
def adminKeyGE (a b : Forecast × User) : Prop :=
  (admin_sort_key b).1 < (admin_sort_key a).1 ∨
  ((admin_sort_key a).1 = (admin_sort_key b).1 ∧
   (admin_sort_key b).2 ≤ (admin_sort_key a).2)

instance : DecidableRel adminKeyGE := fun a b => by
  unfold adminKeyGE
  exact inferInstance

instance : IsTotal (Forecast × User) adminKeyGE :=
  ⟨by intro a b; unfold adminKeyGE; omega⟩

instance : IsTrans (Forecast × User) adminKeyGE :=
  ⟨by intro a b c; unfold adminKeyGE; omega⟩

/-- Embedding of
`sorted(tournament.forecasts, key=lambda f: (f.points_earned or 0, -f.id), reverse=True)`:
a comparison sort by the descending key (keys are injective on distinct
forecast ids, so any stable sort returns this same list). -/
def all_forecasters (l : List (Forecast × User)) : List (Forecast × User) :=
  List.insertionSort adminKeyGE l

/-! ### 4.4 Season rotation (`app/scripts/migrate_seasons.py`,
`migrate_seasons`; schema from `app/db/migration_v4_seasons.py`) -/

/-- Row of the `seasons` table. -/
structure Season where
  id : ℤ
  number : ℤ
  start_date : ℤ
  end_date : ℤ
  status : String
deriving DecidableEq

/-- Row of the `season_results` table (`user_snapshot` is the denormalized
`(full_name, username)` pair). -/
structure SeasonResult where
  season_id : ℤ
  user_id : ℤ
  rank : ℕ
  points : ℤ
  tournaments_played : ℕ
  user_snapshot : String × Option String
deriving DecidableEq

/-- The columns of a tournament row the rotation script reads. -/
structure STournament where
  id : ℤ
  date : ℤ
  status : TournamentStatus
deriving DecidableEq

/-- The database state the rotation script reads and writes.  `users` is
the lookup used for the denormalized snapshot; `next_season_id` models the
autoincrement id a `flush` assigns to a newly created season. -/
structure SeasonDB where
  tournaments : List STournament
  forecasts : List Forecast
  users : ℤ → String × Option String
  seasons : List Season
  season_results : List SeasonResult
  next_season_id : ℤ

/-- Append a tournament id to its season's entry of the season map,
creating the entry at the back on first encounter (Python dicts preserve
insertion order). -/
def season_map_insert : List (ℤ × List ℤ) → ℤ → ℤ → List (ℤ × List ℤ)
  | [], s, tid => [(s, [tid])]
  | (n, ids) :: rest, s, tid =>
      if n = s then (n, ids ++ [tid]) :: rest
      else (n, ids) :: season_map_insert rest s tid

/-- Step 2 of the script: bucket the (date-ordered) tournaments by season
number, skipping season 0 pre-history. -/
def build_season_map (ts : List STournament) : List (ℤ × List ℤ) :=
  ts.foldl
    (fun acc t =>
      let s := get_season_number t.date
      if s = 0 then acc else season_map_insert acc s t.id)
    []

/-- Embedding of `select(Season).where(Season.number == s_num)` with `scalar_one_or_none`
(the table's UNIQUE constraint on `number` makes first-match adequate). -/
def find_season (ss : List Season) (n : ℤ) : Option Season :=
  ss.find? (fun s => decide (s.number = n))

/-- SQL `SUM` over a group's `points_earned`: NULL rows are ignored and an
all-NULL group sums to NULL. -/
def sql_sum_points (fs : List Forecast) : Option ℤ :=
  let present := fs.filterMap (fun f => f.points_earned)
  if present.isEmpty then none else some present.sum

/-- Descending `ORDER BY SUM(points_earned) DESC` comparison on optional
sums (NULL first, as in PostgreSQL; no claim depends on the placement of
NULL groups or on tie order). -/
def statsDescGE (a b : ℤ × Option ℤ × ℕ) : Prop :=
  match a.2.1, b.2.1 with
  | none, _ => True
  | some _, none => False
  | some x, some y => y ≤ x

instance : DecidableRel statsDescGE := fun a b => by
  obtain ⟨a1, oa, a3⟩ := a
  obtain ⟨b1, ob, b3⟩ := b
  rcases oa with _ | x
  · exact isTrue trivial
  · rcases ob with _ | y
    · exact isFalse (fun h => h)
    · exact (inferInstance : Decidable (y ≤ x))

instance : IsTotal (ℤ × Option ℤ × ℕ) statsDescGE :=
  ⟨by
    intro a b
    obtain ⟨a1, oa, a3⟩ := a
    obtain ⟨b1, ob, b3⟩ := b
    rcases oa with _ | x
    · exact Or.inl trivial
    · rcases ob with _ | y
      · exact Or.inr trivial
      · exact (le_total y x).imp (fun h => h) (fun h => h)⟩

instance : IsTrans (ℤ × Option ℤ × ℕ) statsDescGE :=
  ⟨by
    intro a b c hab hbc
    obtain ⟨a1, oa, a3⟩ := a
    obtain ⟨b1, ob, b3⟩ := b
    obtain ⟨c1, oc, c3⟩ := c
    rcases oa with _ | x
    · exact trivial
    · rcases ob with _ | y
      · exact hab.elim
      · rcases oc with _ | z
        · exact hbc.elim
        · exact le_trans hbc hab⟩

/-- The aggregation query of step 4, embedded declaratively: one row
`(user_id, SUM(points_earned), COUNT(id))` per user having a forecast on a
tournament of `t_ids` (note: `t_ids` membership is the only filter — no
status condition), ordered by the sum descending. -/
def stats_rows (fs : List Forecast) (t_ids : List ℤ) :
    List (ℤ × Option ℤ × ℕ) :=
  let rel := fs.filter (fun f => decide (f.tournament_id ∈ t_ids))
  let users := rel.foldl
    (fun acc f => if f.user_id ∈ acc then acc else acc ++ [f.user_id]) []
  let rows := users.map (fun u =>
    let g := rel.filter (fun f => decide (f.user_id = u))
    (u, sql_sum_points g, g.length))
  List.insertionSort statsDescGE rows

/-- Embedding of `for rank, (user_id, points, played) in enumerate(stats, 1)`: one
SeasonResult row per aggregated user, rank by enumeration position,
`points or 0` for an all-NULL sum. -/
def mk_season_rows (users_tbl : ℤ → String × Option String) (sid : ℤ)
    (stats : List (ℤ × Option ℤ × ℕ)) : List SeasonResult :=
  stats.enum.map (fun p =>
    { season_id := sid, user_id := p.2.1, rank := p.1 + 1,
      points := p.2.2.1.getD 0, tournaments_played := p.2.2.2,
      user_snapshot := users_tbl p.2.1 })

/-- The per-season body of step 3/4 over the session state
`(seasons, season_results, next autoincrement id)`: find or create the
Season record, skip if the id list is empty, skip if the season already has
SeasonResult rows (idempotency guard), otherwise write the ranked rows. -/
def season_step (fs : List Forecast) (users_tbl : ℤ → String × Option String)
    (st : List Season × List SeasonResult × ℤ) (entry : ℤ × List ℤ) :
    List Season × List SeasonResult × ℤ :=
  let found := find_season st.1 entry.1
  let season : Season :=
    match found with
    | some s => s
    | none =>
        ⟨st.2.2, entry.1, (get_season_dates entry.1).1,
         (get_season_dates entry.1).2, "closed"⟩
  let seasons' := match found with
    | some _ => st.1
    | none => st.1 ++ [season]
  let nextId' := match found with
    | some _ => st.2.2
    | none => st.2.2 + 1
  if entry.2 = [] then (seasons', st.2.1, nextId')
  else if st.2.1.any (fun r => decide (r.season_id = season.id))
  then (seasons', st.2.1, nextId')
  else
    (seasons',
     st.2.1 ++ mk_season_rows users_tbl season.id (stats_rows fs entry.2),
     nextId')

/-- Embedding of `migrate_seasons` (one committed transaction): no-op on an
empty tournament table, otherwise fold the per-season step over the season
map of the date-ordered tournaments. -/
def migrate_seasons (db : SeasonDB) : SeasonDB :=
  if db.tournaments = [] then db
  else
    let tournaments :=
      List.insertionSort (fun a b => a.date ≤ b.date) db.tournaments
    let sm := build_season_map tournaments
    let st := sm.foldl (season_step db.forecasts db.users)
      (db.seasons, db.season_results, db.next_season_id)
    { db with
      seasons := st.1, season_results := st.2.1, next_season_id := st.2.2 }

/-- A database with a single Open (non-Finished) tournament on the anchor
date carrying one unscored forecast by user 7. -/
def c4db : SeasonDB :=
  { tournaments := [⟨1, FIRST_SEASON_START, TournamentStatus.OPEN⟩],
    forecasts := [⟨1, 7, 1, [1, 2], none, 0⟩],
    users := fun _ => ("", none),
    seasons := [],
    season_results := [],
    next_season_id := 1 }

/-- A season-map entry is settled in a session state when its Season
record exists and either its id list is empty, or its aggregation is
empty, or SeasonResult rows for its Season already exist — exactly the
conditions under which the per-season step writes nothing. -/
def entry_settled (fs : List Forecast)
    (st : List Season × List SeasonResult × ℤ) (entry : ℤ × List ℤ) : Prop :=
  ∃ s, find_season st.1 entry.1 = some s ∧
    (entry.2 = [] ∨ stats_rows fs entry.2 = [] ∨
     ∃ r ∈ st.2.1, r.season_id = s.id)

/-- One scoring-loop iteration adds exactly the per-slot points, appends the
per-slot error, and counts the slot when it is an exact hit. -/
theorem scoreStep_eq (s : ℕ) (rd : ℤ → Option ℤ) (acc : ℤ × List ℤ × ℕ)
    (p : ℕ × ℤ) :
    scoreStep s rd acc p =
      (acc.1 + slot_points rd p, acc.2.1 ++ [slot_error s rd p],
       acc.2.2 + (if slot_exact rd p then 1 else 0)) := by
  unfold scoreStep slot_points slot_error slot_exact
  rcases rd p.2 with _ | r
  · simp
  · by_cases hd : |((p.1 : ℤ) + 1) - r| = 0 <;> simp [hd]

/-- The scoring loop, folded over any enumerated slot list, accumulates the
per-slot points sum, the per-slot error list and the exact-hit count. -/
theorem foldl_scoreStep (s : ℕ) (rd : ℤ → Option ℤ) (l : List (ℕ × ℤ))
    (acc : ℤ × List ℤ × ℕ) :
    l.foldl (scoreStep s rd) acc =
      (acc.1 + (l.map (slot_points rd)).sum,
       acc.2.1 ++ l.map (slot_error s rd),
       acc.2.2 + l.countP (slot_exact rd)) := by
  induction l generalizing acc with
  | nil => simp
  | cons p t ih =>
      rw [List.foldl_cons, scoreStep_eq, ih]
      rcases acc with ⟨pts, errs, hits⟩
      refine Prod.ext ?_ (Prod.ext ?_ ?_)
      · simp [List.sum_cons]; ring
      · simp
      · simp [List.countP_cons]
        by_cases hx : slot_exact rd p
        · simp [hx]
          omega
        · simp [hx]

/-- Closed form of `calculate_forecast_points`: per-slot points summed, the
per-slot errors listed in slot order, the exact hits counted, and the +15
bonus added exactly when every slot is exact and there is at least one. -/
theorem calculate_forecast_points_closed_form (pd : List ℤ) (rd : ℤ → Option ℤ) :
    calculate_forecast_points pd rd =
      ((pd.enum.map (slot_points rd)).sum +
         (if pd.enum.countP (slot_exact rd) = pd.length ∧ 0 < pd.length
          then 15 else 0),
       pd.enum.map (slot_error pd.length rd),
       pd.enum.countP (slot_exact rd)) := by
  unfold calculate_forecast_points
  simp only [foldl_scoreStep, zero_add, List.nil_append]
  by_cases h : pd.enum.countP (slot_exact rd) = pd.length ∧ 0 < pd.length <;>
    simp [h]

/-- Each slot awards a non-negative number of points. -/
theorem slot_points_nonneg (rd : ℤ → Option ℤ) (p : ℕ × ℤ) :
    0 ≤ slot_points rd p := by
  unfold slot_points
  rcases rd p.2 with _ | r
  · simp
  · by_cases hd : |((p.1 : ℤ) + 1) - r| = 0 <;> simp [hd]

/-- The total points returned by the scoring function are non-negative. -/
theorem calculate_forecast_points_nonneg (pd : List ℤ) (rd : ℤ → Option ℤ) :
    0 ≤ (calculate_forecast_points pd rd).1 := by
  rw [calculate_forecast_points_closed_form]
  have hsum : 0 ≤ (pd.enum.map (slot_points rd)).sum :=
    List.sum_nonneg (by
      intro x hx
      rcases List.mem_map.1 hx with ⟨p, _, rfl⟩
      exact slot_points_nonneg rd p)
  dsimp only
  split <;> linarith

/-- C2: for every prediction list and outcome map, the scoring function
returns exactly the per-slot algorithm's result — slot `i` predicts rank
`i+1`; a placed competitor contributes error `|predicted − actual|` and 5
points on an exact hit (counted) else 1 point; an absent competitor
contributes 0 points and sentinel error `N`; a flat +15 bonus is added iff
`exact_hits = N` and `N > 0`; and the empty prediction scores `(0, [], 0)`. -/
theorem scoring_implements_per_slot_spec (pd : List ℤ) (rd : ℤ → Option ℤ) :
    calculate_forecast_points pd rd =
      ((pd.enum.map (slot_points rd)).sum +
         (if pd.enum.countP (slot_exact rd) = pd.length ∧ 0 < pd.length
          then 15 else 0),
       pd.enum.map (slot_error pd.length rd),
       pd.enum.countP (slot_exact rd)) ∧
    calculate_forecast_points [] rd = (0, [], 0) := by
  refine ⟨calculate_forecast_points_closed_form pd rd, ?_⟩
  simp [calculate_forecast_points]

/-- C3 counterexample: one 3-slot prediction with 1 exact hit applied to the
fresh state (`total_slots = 0`) yields `accuracy_rate = 33.33`, not the
exact value `100·1/3` the claim asserts — the code rounds to 2 decimals. -/
theorem stats_aggregator_fresh_not_exact :
    (calculate_new_stats 0 0 0 0 7 [0, 2, 1] 1).2.1 ≠ 100 * 1 / 3 := by
  simp only [calculate_new_stats]
  unfold round2
  norm_num

/-- C3 amended: on the fresh state (`total_slots = 0`) with an `N ≥ 1`-slot
prediction containing `k` exact hits, the aggregator returns the new total,
`accuracy_rate = round₂(100k/N)` and `avg_error = round₂((Σ errors)/N)` —
i.e. the claimed exact values up to the 2-decimal display rounding. -/
theorem stats_aggregator_fresh_rounded (tp : ℤ) (acc mae : ℚ) (p : ℤ)
    (diffs : List ℤ) (k : ℕ) (hN : 0 < diffs.length) :
    calculate_new_stats tp acc mae 0 p diffs k =
      (tp + p,
       round2 ((k : ℚ) * 100 / (diffs.length : ℚ)),
       round2 (((diffs.sum : ℤ) : ℚ) / (diffs.length : ℚ))) := by
  have hlen : ((diffs.length : ℚ)) ≠ 0 := Nat.cast_ne_zero.mpr hN.ne'
  unfold calculate_new_stats
  have h0 : 0 + diffs.length = diffs.length := by omega
  simp only [h0, hN, if_pos, Nat.cast_zero, mul_zero, zero_add]
  simp only [Prod.mk.injEq, eq_self_iff_true, true_and, and_true]
  congr 1
  rw [div_mul_eq_mul_div]

/-- Witness for the amended C3 at a concrete input. -/
theorem stats_aggregator_fresh_rounded_witness :
    0 < ([0, 2, 1] : List ℤ).length ∧
    calculate_new_stats 3 50 2 0 7 [0, 2, 1] 1 =
      (3 + 7,
       round2 (((1 : ℕ) : ℚ) * 100 / (((3 : ℕ) : ℚ))),
       round2 ((((3 : ℤ)) : ℚ) / (((3 : ℕ) : ℚ)))) :=
  ⟨by decide, stats_aggregator_fresh_rounded 3 50 2 7 [0, 2, 1] 1 (by decide)⟩

/-- C9: the season-number function sends a date on/after the anchor to
`floor((date − anchor)/7) + 1` and an earlier date to 0; the anchor and
anchor+6 are season 1 while anchor+7 is season 2; and season `n`'s window
is `[anchor + 7(n−1), anchor + 7(n−1) + 6]`. -/
theorem season_number_and_window (d n : ℤ) :
    (FIRST_SEASON_START ≤ d →
      get_season_number d = Int.fdiv (d - FIRST_SEASON_START) 7 + 1) ∧
    (d < FIRST_SEASON_START → get_season_number d = 0) ∧
    get_season_number FIRST_SEASON_START = 1 ∧
    get_season_number (FIRST_SEASON_START + 6) = 1 ∧
    get_season_number (FIRST_SEASON_START + 7) = 2 ∧
    get_season_dates n =
      (FIRST_SEASON_START + 7 * (n - 1), FIRST_SEASON_START + 7 * (n - 1) + 6) := by
  refine ⟨?_, ?_, ?_, ?_, ?_, rfl⟩
  · intro hd
    unfold get_season_number
    rw [if_neg (not_lt.mpr hd), Int.fdiv_eq_ediv _ (by norm_num)]
  · intro hd
    unfold get_season_number
    rw [if_pos hd]
  · simp [get_season_number]
  · simp [get_season_number, FIRST_SEASON_START]
  · simp [get_season_number, FIRST_SEASON_START]

/-- Witness for C9 at concrete dates on each side of the anchor. -/
theorem season_number_and_window_witness :
    get_season_number (FIRST_SEASON_START + 10) = Int.fdiv 10 7 + 1 ∧
    get_season_number (FIRST_SEASON_START - 1) = 0 := by
  constructor
  · have h := (season_number_and_window (FIRST_SEASON_START + 10) 2).1
      (by omega)
    rwa [show FIRST_SEASON_START + 10 - FIRST_SEASON_START = (10 : ℤ) by ring]
      at h
  · exact (season_number_and_window (FIRST_SEASON_START - 1) 2).2.1 (by omega)

/-- A suffix stays a suffix when the same element is appended to both. -/
theorem suffix_append_singleton {α : Type} {r l : List α} (b : α)
    (h : r <:+ l) : r ++ [b] <:+ l ++ [b] := by
  rcases h with ⟨s, rfl⟩
  exact ⟨s, by simp⟩

/-- Concatenations of single elements are injective componentwise. -/
theorem concat_eq_concat {α : Type} {a b : List α} {c d : α}
    (h : a ++ [c] = b ++ [d]) : a = b ∧ c = d := by
  have h' := congrArg List.reverse h
  simp only [List.reverse_append, List.reverse_cons, List.reverse_nil,
    List.nil_append, List.singleton_append] at h'
  obtain ⟨h1, h2⟩ := List.cons.inj h'
  exact ⟨by simpa using congrArg List.reverse h2, h1⟩

/-- A suffix of `l ++ [b]` of length ≥ 1 ending in `b` peels off to a
suffix of `l`: cancellation of the appended element. -/
theorem suffix_of_suffix_append {α : Type} {r l : List α} {b : α}
    (h : r ++ [b] <:+ l ++ [b]) : r <:+ l := by
  rcases h with ⟨s, hs⟩
  rw [← List.append_assoc] at hs
  exact ⟨s, (concat_eq_concat hs).1⟩

/-- A run of `true`s cannot be a nonempty suffix of a list ending in
`false`. -/
theorem replicate_true_suffix_false {l : List Bool} {n : ℕ}
    (h : List.replicate n true <:+ l ++ [false]) : n = 0 := by
  rcases n with _ | m
  · rfl
  · exfalso
    rw [List.replicate_succ'] at h
    rcases h with ⟨s, hs⟩
    rw [← List.append_assoc] at hs
    exact absurd (concat_eq_concat hs).2 (by simp)

/-- An infix of `l ++ [b]` is an infix of `l` or a suffix of `l ++ [b]`. -/
theorem infix_append_singleton_cases {α : Type} {x l : List α} {b : α}
    (h : x <:+: l ++ [b]) : x <:+: l ∨ x <:+ l ++ [b] := by
  rcases h with ⟨s, t, hst⟩
  induction t using List.reverseRecOn with
  | nil =>
      right
      exact ⟨s, by simpa using hst⟩
  | append_singleton t' c _ =>
      left
      rw [show s ++ x ++ (t' ++ [c]) = (s ++ x ++ t') ++ [c] by simp] at hst
      exact ⟨s, t', by simpa using (concat_eq_concat hst).1⟩

/-- Shorter runs of the same element are infixes of longer ones'
supersets. -/
theorem replicate_mono_isInfix {α : Type} {l : List α} {a : α} {m n : ℕ}
    (hmn : m ≤ n) (h : List.replicate n a <:+: l) :
    List.replicate m a <:+: l := by
  rcases h with ⟨s, t, hst⟩
  refine ⟨s, List.replicate (n - m) a ++ t, ?_⟩
  have key : List.replicate m a ++ List.replicate (n - m) a
      = List.replicate n a := by
    rw [← List.replicate_add]
    congr 1
    omega
  calc s ++ List.replicate m a ++ (List.replicate (n - m) a ++ t)
      = s ++ (List.replicate m a ++ List.replicate (n - m) a) ++ t := by
        simp only [List.append_assoc]
    _ = s ++ List.replicate n a ++ t := by rw [key]
    _ = l := hst

/-- A suffix is an infix. -/
theorem isSuffix_isInfix {α : Type} {x l : List α} (h : x <:+ l) :
    x <:+: l := by
  rcases h with ⟨s, rfl⟩
  exact ⟨s, [], by simp⟩

/-- An infix of `l` is an infix of `l ++ l'`. -/
theorem isInfix_append_right {α : Type} {x l : List α} (l' : List α)
    (h : x <:+: l) : x <:+: l ++ l' := by
  rcases h with ⟨s, t, rfl⟩
  exact ⟨s, t ++ l', by simp⟩

/-- Loop invariant of the streak fold: after consuming the participation
list `l`, `temp_streak` is the trailing run of `l` and
`max temp_streak max_streak` is the longest run of `l`. -/
theorem streakFold_invariant (l : List Bool) :
    trailing_ok l (l.foldl streakStepB (0, 0)).1 ∧
    longest_ok l
      (max (l.foldl streakStepB (0, 0)).1 (l.foldl streakStepB (0, 0)).2) := by
  induction l using List.reverseRecOn with
  | nil =>
      refine ⟨⟨⟨[], rfl⟩, ?_⟩, ⟨⟨[], [], by simp⟩, ?_⟩⟩
      · intro n hn
        have := List.eq_nil_of_suffix_nil hn
        simpa using congrArg List.length this
      · intro n hn
        rcases hn with ⟨s, t, hst⟩
        have : s = [] ∧ List.replicate n true ++ t = [] :=
          List.append_eq_nil.mp (by simpa using hst)
        have h2 := List.append_eq_nil.mp this.2
        simpa using congrArg List.length h2.1
  | append_singleton l b ih =>
      obtain ⟨⟨hsuf, hsufmax⟩, hinf, hinfmax⟩ := ih
      rw [List.foldl_append, List.foldl_cons, List.foldl_nil]
      set s := l.foldl streakStepB (0, 0) with hs
      cases b
      · -- missed the last event: temp resets, max folds in temp
        simp only [streakStepB, Bool.false_eq_true, if_false]
        constructor
        · exact ⟨⟨l ++ [false], by simp⟩, fun n hn => by
            simp [replicate_true_suffix_false hn]⟩
        · constructor
          · simp only [Nat.zero_max]
            have : (if s.1 > s.2 then s.1 else s.2) = max s.1 s.2 := by
              split <;> omega
            rw [this]
            exact isInfix_append_right [false] hinf
          · intro n hn
            rcases infix_append_singleton_cases hn with h | h
            · have := hinfmax n h
              have hm : (if s.1 > s.2 then s.1 else s.2) = max s.1 s.2 := by
                split <;> omega
              omega
            · have := replicate_true_suffix_false h
              omega
      · -- participated in the last event: temp extends by one
        simp only [streakStepB, if_true]
        constructor
        · constructor
          · rw [List.replicate_succ']
            exact suffix_append_singleton true hsuf
          · intro n hn
            rcases n with _ | m
            · omega
            · rw [List.replicate_succ'] at hn
              have := hsufmax m (suffix_of_suffix_append hn)
              omega
        · constructor
          · rcases Nat.le_total (s.1 + 1) s.2 with hle | hle
            · rw [Nat.max_eq_right hle]
              refine isInfix_append_right [true] ?_
              exact replicate_mono_isInfix (le_max_right s.1 s.2) hinf
            · rw [Nat.max_eq_left hle]
              refine isSuffix_isInfix ?_
              rw [List.replicate_succ']
              exact suffix_append_singleton true hsuf
          · intro n hn
            rcases infix_append_singleton_cases hn with h | h
            · have := hinfmax n h
              omega
            · rcases n with _ | m
              · omega
              · rw [List.replicate_succ'] at h
                have := hsufmax m (suffix_of_suffix_append h)
                omega

/-- C7: on the chronologically ordered non-Draft event list, the streak
calculator returns `max_streak` = length of the longest run of consecutive
predicted events and `current_streak` = length of the trailing run ending
at the last event (0 when the last event was skipped); in particular the
E1,E2,—,E4,E5 pattern over five events gives `(2, 2)`. -/
theorem streak_calculator_correct (ids : List ℤ) (inSet : ℤ → Bool) :
    trailing_ok (ids.map inSet) (recalculate_user_streaks ids inSet).1 ∧
    longest_ok (ids.map inSet) (recalculate_user_streaks ids inSet).2 ∧
    recalculate_user_streaks [1, 2, 3, 4, 5] (fun t => t != 3) = (2, 2) := by
  have hfold : ids.foldl (fun s tid => streakStepB s (inSet tid)) (0, 0)
      = (ids.map inSet).foldl streakStepB (0, 0) :=
    (List.foldl_map inSet streakStepB ids (0, 0)).symm
  obtain ⟨ht, hinf⟩ := streakFold_invariant (ids.map inSet)
  refine ⟨?_, ?_, by rfl⟩
  · show trailing_ok (ids.map inSet)
      (ids.foldl (fun s tid => streakStepB s (inSet tid)) (0, 0)).1
    rw [hfold]
    exact ht
  · show longest_ok (ids.map inSet)
      (let s := ids.foldl (fun s tid => streakStepB s (inSet tid)) (0, 0)
       if s.1 > s.2 then s.1 else s.2)
    rw [hfold]
    set s := (ids.map inSet).foldl streakStepB (0, 0) with hs
    have hmax : (if s.1 > s.2 then s.1 else s.2) = max s.1 s.2 := by
      split <;> omega
    simpa [hmax] using hinf

/-- A fault injected at any position inside the forecast list makes the
loop raise. -/
theorem process_loop_fault (rd : ℤ → Option ℤ) (l : List (Forecast × User))
    (n k : ℕ) (hnk : n ≤ k) (hk : k < n + l.length) :
    process_loop rd (some k) n l = Except.error () := by
  induction l generalizing n with
  | nil => simp at hk; omega
  | cons fu rest ih =>
      unfold process_loop
      by_cases h : k = n
      · simp [h]
      · rw [if_neg (by simp [h])]
        rw [ih (n + 1) (by omega) (by simp at hk ⊢; omega)]

/-- C1: finalize is atomic — a fault injected at any position of the
scoring/statistics loop rolls the transaction back, so the stored
tournament is unchanged: its status is still Live and no prediction has
`points_earned` set. -/
theorem finalize_atomic (t : Tournament) (rd : ℤ → Option ℤ) (k : ℕ)
    (hk : k < t.forecasts.length)
    (hLive : t.status = TournamentStatus.LIVE)
    (hNone : ∀ fu ∈ t.forecasts, fu.1.points_earned = none) :
    cq_set_results_confirm (some k) t rd = t ∧
    (cq_set_results_confirm (some k) t rd).status = TournamentStatus.LIVE ∧
    ∀ fu ∈ (cq_set_results_confirm (some k) t rd).forecasts,
      fu.1.points_earned = none := by
  have herr := process_loop_fault rd t.forecasts 0 k (by omega) (by omega)
  have heq : cq_set_results_confirm (some k) t rd = t := by
    unfold cq_set_results_confirm
    rw [herr]
  exact ⟨heq, by rw [heq]; exact hLive, by rw [heq]; exact hNone⟩

/-- Witness for C1: a fault after scoring 2 of the 5 predictions leaves the
stored tournament exactly as it was. -/
theorem finalize_atomic_witness :
    2 < exTournament.forecasts.length ∧
    exTournament.status = TournamentStatus.LIVE ∧
    (∀ fu ∈ exTournament.forecasts, fu.1.points_earned = none) ∧
    cq_set_results_confirm (some 2) exTournament (fun _ => none)
      = exTournament :=
  ⟨by decide, by rfl, by decide,
    (finalize_atomic exTournament (fun _ => none) 2 (by decide) (by rfl)
      (by decide)).1⟩

/-- C8: scored points are non-negative and the finalize loop only ever adds
them, so a participant's `total_points` never decreases under finalize. -/
theorem total_points_monotone :
    (∀ (pd : List ℤ) (rd : ℤ → Option ℤ),
      0 ≤ (calculate_forecast_points pd rd).1) ∧
    (∀ (rd : ℤ → Option ℤ) (fu : Forecast × User),
      fu.2.total_points ≤ (process_forecast rd fu).2.total_points) := by
  refine ⟨calculate_forecast_points_nonneg, ?_⟩
  intro rd fu
  show fu.2.total_points ≤
    fu.2.total_points + (calculate_forecast_points fu.1.prediction_data rd).1
  have h := calculate_forecast_points_nonneg fu.1.prediction_data rd
  omega

/-- C5: the ranked admin summary lists the forecasts in points-descending
order, and among equal-points forecasts the one created earlier comes
first (forecast ids are autoincrement-assigned, so id order is
creation-time order — the `hcr` hypothesis). -/
theorem admin_summary_ranking (l : List (Forecast × User))
    (hne : l.Pairwise (fun a b => a.1.id ≠ b.1.id))
    (hcr : ∀ a ∈ l, ∀ b ∈ l, a.1.id < b.1.id →
      a.1.created_at < b.1.created_at) :
    (all_forecasters l).Pairwise (fun a b =>
      b.1.points_earned.getD 0 < a.1.points_earned.getD 0 ∨
      (a.1.points_earned.getD 0 = b.1.points_earned.getD 0 ∧
       a.1.created_at < b.1.created_at)) ∧
    (all_forecasters l).Perm l := by
  have hperm : (all_forecasters l).Perm l := List.perm_insertionSort adminKeyGE l
  have hsorted : (all_forecasters l).Pairwise adminKeyGE :=
    List.sorted_insertionSort adminKeyGE l
  have hne' : (all_forecasters l).Pairwise (fun a b => a.1.id ≠ b.1.id) :=
    (hperm.pairwise_iff (fun h => Ne.symm h)).2 hne
  refine ⟨(hsorted.and hne').imp_of_mem ?_, hperm⟩
  intro a b ha hb hab
  obtain ⟨hge, hne2⟩ := hab
  rcases hge with hlt | ⟨heq, hle⟩
  · left
    simpa [admin_sort_key] using hlt
  · right
    have h1 : -b.1.id ≤ -a.1.id := by simpa [admin_sort_key] using hle
    have hid : a.1.id < b.1.id := by omega
    exact ⟨by simpa [admin_sort_key] using heq,
      hcr a (hperm.subset ha) b (hperm.subset hb) hid⟩

/-- Witness for C5 at a concrete two-forecast list with equal points. -/
theorem admin_summary_ranking_witness :
    ([exFU 2, exFU 1] : List (Forecast × User)).Pairwise
      (fun a b => a.1.id ≠ b.1.id) ∧
    ((all_forecasters [exFU 2, exFU 1]).Pairwise (fun a b =>
      b.1.points_earned.getD 0 < a.1.points_earned.getD 0 ∨
      (a.1.points_earned.getD 0 = b.1.points_earned.getD 0 ∧
       a.1.created_at < b.1.created_at)) ∧
     (all_forecasters [exFU 2, exFU 1]).Perm [exFU 2, exFU 1]) :=
  ⟨by decide, admin_summary_ranking [exFU 2, exFU 1] (by decide) (by decide)⟩

/-- Enumerating a list from `n` and taking each index plus one yields the
consecutive integers `n+1, …, n+length`. -/
theorem enumFrom_rank {α : Type} (l : List α) (n : ℕ) :
    (List.enumFrom n l).map (fun p => p.1 + 1) = List.range' (n + 1) l.length := by
  induction l generalizing n with
  | nil => simp
  | cons x t ih => simp [List.enumFrom, List.range'_succ, ih]

/-- C10: the rows archived for a season carry exactly the ranks
`1, 2, …, K` — consecutive, none shared, none skipped, even for
equal-points participants. -/
theorem season_ranks_consecutive (users_tbl : ℤ → String × Option String)
    (sid : ℤ) (stats : List (ℤ × Option ℤ × ℕ)) :
    (mk_season_rows users_tbl sid stats).map (fun r => r.rank)
      = List.range' 1 stats.length := by
  unfold mk_season_rows
  rw [List.map_map]
  show stats.enum.map (fun p => p.1 + 1) = List.range' 1 stats.length
  rw [List.enum_eq_enumFrom]
  simpa using enumFrom_rank stats 0

/-- C4 counterexample: every event of `c4db` is non-Finished, yet the
rotation archives a SeasonResult row for user 7 (points 0, one event
played) — predictions on non-Finished events do enter the snapshot. -/
theorem season_aggregation_includes_unfinished :
    (∀ t ∈ c4db.tournaments, t.status ≠ TournamentStatus.FINISHED) ∧
    (migrate_seasons c4db).season_results
      = [⟨1, 7, 1, 0, 1, ("", none)⟩] := by
  constructor
  · decide
  · rfl

/-- Every archived row carries the season id it was written for. -/
theorem mk_season_rows_sid (u : ℤ → String × Option String) (sid : ℤ)
    (stats : List (ℤ × Option ℤ × ℕ)) (r : SeasonResult)
    (hr : r ∈ mk_season_rows u sid stats) : r.season_id = sid := by
  unfold mk_season_rows at hr
  obtain ⟨p, _, rfl⟩ := List.mem_map.1 hr
  rfl

/-- A non-empty aggregation archives at least one row. -/
theorem mk_season_rows_ne_nil (u : ℤ → String × Option String) (sid : ℤ)
    (stats : List (ℤ × Option ℤ × ℕ)) (h : stats ≠ []) :
    mk_season_rows u sid stats ≠ [] := by
  unfold mk_season_rows
  simp only [ne_eq, List.map_eq_nil_iff, List.enum_eq_nil]
  exact h

/-- The per-season step is the identity on a settled entry: the season is
found, not re-created, and the existing-rows (or empty-aggregation) guard
skips the write. -/
theorem season_step_settled (fs : List Forecast)
    (u : ℤ → String × Option String)
    (st : List Season × List SeasonResult × ℤ) (e : ℤ × List ℤ)
    (h : entry_settled fs st e) :
    season_step fs u st e = st := by
  obtain ⟨s, hfind, hcase⟩ := h
  obtain ⟨seas, res, nid⟩ := st
  unfold season_step
  simp only at hfind
  rw [hfind]
  by_cases he : e.2 = []
  · simp [he]
  · rw [if_neg he]
    by_cases hany : res.any (fun r => decide (r.season_id = s.id))
    · simp [hany]
    · rcases hcase with he' | hstats | ⟨r, hr, hrid⟩
      · exact absurd he' he
      · simp [hany, hstats, mk_season_rows]
      · exact absurd (List.any_eq_true.2 ⟨r, hr, by simpa using hrid⟩) hany

/-- After the per-season step, the entry just processed is settled. -/
theorem season_step_settles (fs : List Forecast)
    (u : ℤ → String × Option String)
    (st : List Season × List SeasonResult × ℤ) (e : ℤ × List ℤ) :
    entry_settled fs (season_step fs u st e) e := by
  obtain ⟨seas, res, nid⟩ := st
  unfold season_step entry_settled
  cases hfind : find_season seas e.1 with
  | some s =>
      simp only [hfind]
      by_cases he : e.2 = []
      · rw [if_pos he]
        exact ⟨s, hfind, Or.inl he⟩
      · rw [if_neg he]
        by_cases hany : res.any (fun r => decide (r.season_id = s.id))
        · rw [if_pos hany]
          obtain ⟨r, hr, hp⟩ := List.any_eq_true.1 hany
          exact ⟨s, hfind, Or.inr (Or.inr ⟨r, hr, by simpa using hp⟩)⟩
        · rw [if_neg hany]
          by_cases hstats : stats_rows fs e.2 = []
          · exact ⟨s, hfind, Or.inr (Or.inl hstats)⟩
          · refine ⟨s, hfind, Or.inr (Or.inr ?_)⟩
            obtain ⟨r, hr⟩ :=
              List.exists_mem_of_ne_nil _ (mk_season_rows_ne_nil u s.id _ hstats)
            exact ⟨r, List.mem_append_right _ hr,
              mk_season_rows_sid u s.id _ r hr⟩
  | none =>
      simp only [hfind]
      have hfind' : ∀ (extra : List Season),
          find_season (seas ++ extra) e.1
            = find_season extra e.1 := by
        intro extra
        unfold find_season at hfind ⊢
        rw [List.find?_append, hfind]
        rfl
      have hself : find_season
          ((⟨nid, e.1, (get_season_dates e.1).1, (get_season_dates e.1).2,
            "closed"⟩ : Season) :: []) e.1
          = some ⟨nid, e.1, (get_season_dates e.1).1,
              (get_season_dates e.1).2, "closed"⟩ := by
        unfold find_season
        simp
      by_cases he : e.2 = []
      · rw [if_pos he]
        exact ⟨_, by rw [hfind' [_]]; exact hself, Or.inl he⟩
      · rw [if_neg he]
        by_cases hany : res.any (fun r => decide (r.season_id = nid))
        · rw [if_pos hany]
          obtain ⟨r, hr, hp⟩ := List.any_eq_true.1 hany
          exact ⟨_, by rw [hfind' [_]]; exact hself,
            Or.inr (Or.inr ⟨r, hr, by simpa using hp⟩)⟩
        · rw [if_neg hany]
          by_cases hstats : stats_rows fs e.2 = []
          · exact ⟨_, by rw [hfind' [_]]; exact hself,
              Or.inr (Or.inl hstats)⟩
          · refine ⟨_, by rw [hfind' [_]]; exact hself,
              Or.inr (Or.inr ?_)⟩
            obtain ⟨r, hr⟩ :=
              List.exists_mem_of_ne_nil _ (mk_season_rows_ne_nil u nid _ hstats)
            exact ⟨r, List.mem_append_right _ hr,
              mk_season_rows_sid u nid _ r hr⟩

/-- The per-season step preserves the settledness of every entry: it only
ever appends seasons and rows, and the find-first-by-number result of an
already-found season is unchanged by appending. -/
theorem season_step_preserves (fs : List Forecast)
    (u : ℤ → String × Option String)
    (st : List Season × List SeasonResult × ℤ) (e e' : ℤ × List ℤ)
    (h : entry_settled fs st e') :
    entry_settled fs (season_step fs u st e) e' := by
  obtain ⟨s, hfind, hcase⟩ := h
  obtain ⟨seas, res, nid⟩ := st
  have hstep_seasons : (season_step fs u (seas, res, nid) e).1 = seas ∨
      ∃ x, (season_step fs u (seas, res, nid) e).1 = seas ++ [x] := by
    unfold season_step
    cases hf : find_season seas e.1 <;>
      [skip; skip] <;> simp only [hf] <;> split <;>
      first
        | exact Or.inl rfl
        | exact Or.inr ⟨_, rfl⟩
        | split <;>
            first
              | exact Or.inl rfl
              | exact Or.inr ⟨_, rfl⟩
  have hstep_results : ∃ l, (season_step fs u (seas, res, nid) e).2.1
      = res ++ l := by
    unfold season_step
    cases hf : find_season seas e.1 <;> simp only [hf] <;> split
    · exact ⟨[], by simp⟩
    · split
      · exact ⟨[], by simp⟩
      · exact ⟨_, rfl⟩
    · exact ⟨[], by simp⟩
    · split
      · exact ⟨[], by simp⟩
      · exact ⟨_, rfl⟩
  refine ⟨s, ?_, ?_⟩
  · rcases hstep_seasons with hs | ⟨x, hs⟩
    · rw [hs]
      exact hfind
    · rw [hs]
      unfold find_season at hfind ⊢
      rw [List.find?_append, hfind]
      rfl
  · obtain ⟨l, hres⟩ := hstep_results
    rcases hcase with h1 | h2 | ⟨r, hr, hrid⟩
    · exact Or.inl h1
    · exact Or.inr (Or.inl h2)
    · exact Or.inr (Or.inr ⟨r, by rw [hres]; exact List.mem_append_left _ hr,
        hrid⟩)

/-- Folding the per-season step over entries that are all settled leaves
the session state unchanged. -/
theorem foldl_settled (fs : List Forecast) (u : ℤ → String × Option String)
    (l : List (ℤ × List ℤ)) (st : List Season × List SeasonResult × ℤ)
    (h : ∀ e ∈ l, entry_settled fs st e) :
    l.foldl (season_step fs u) st = st := by
  induction l with
  | nil => rfl
  | cons e rest ih =>
      rw [List.foldl_cons,
        season_step_settled fs u st e (h e (List.mem_cons_self e rest))]
      exact ih (fun e' he' => h e' (List.mem_cons_of_mem e he'))

/-- Settledness of an entry survives any further folding of the step. -/
theorem foldl_preserves_settled (fs : List Forecast)
    (u : ℤ → String × Option String) (l : List (ℤ × List ℤ))
    (st : List Season × List SeasonResult × ℤ) (e' : ℤ × List ℤ)
    (h : entry_settled fs st e') :
    entry_settled fs (l.foldl (season_step fs u) st) e' := by
  induction l generalizing st with
  | nil => exact h
  | cons e rest ih =>
      rw [List.foldl_cons]
      exact ih _ (season_step_preserves fs u st e e' h)

/-- After one full fold of the per-season step, every processed entry is
settled. -/
theorem foldl_settles_all (fs : List Forecast)
    (u : ℤ → String × Option String) (l : List (ℤ × List ℤ))
    (st : List Season × List SeasonResult × ℤ) :
    ∀ e ∈ l, entry_settled fs (l.foldl (season_step fs u) st) e := by
  induction l generalizing st with
  | nil =>
      intro e he
      simp at he
  | cons e0 rest ih =>
      intro e he
      rw [List.foldl_cons]
      rcases List.mem_cons.1 he with rfl | hmem
      · exact foldl_preserves_settled fs u rest _ e
          (season_step_settles fs u st e)
      · exact ih (season_step fs u st e0) e hmem

/-- C6: season rotation is idempotent — a second run over the same data
creates no Season or SeasonResult row and changes nothing: the whole
database state is unchanged. -/
theorem season_rotation_idempotent (db : SeasonDB) :
    migrate_seasons (migrate_seasons db) = migrate_seasons db := by
  obtain ⟨tours, fs, us, seas, res, nid⟩ := db
  by_cases hemp : tours = []
  · have h1 : migrate_seasons ⟨tours, fs, us, seas, res, nid⟩
        = ⟨tours, fs, us, seas, res, nid⟩ := by
      unfold migrate_seasons
      rw [if_pos hemp]
    rw [h1]
    exact h1
  · have h1 : migrate_seasons ⟨tours, fs, us, seas, res, nid⟩
        = ⟨tours, fs, us,
            ((build_season_map
              (List.insertionSort (fun a b => a.date ≤ b.date) tours)).foldl
              (season_step fs us) (seas, res, nid)).1,
            ((build_season_map
              (List.insertionSort (fun a b => a.date ≤ b.date) tours)).foldl
              (season_step fs us) (seas, res, nid)).2.1,
            ((build_season_map
              (List.insertionSort (fun a b => a.date ≤ b.date) tours)).foldl
              (season_step fs us) (seas, res, nid)).2.2⟩ := by
      unfold migrate_seasons
      rw [if_neg hemp]
    rw [h1]
    have h2 : migrate_seasons
        (⟨tours, fs, us,
          ((build_season_map
            (List.insertionSort (fun a b => a.date ≤ b.date) tours)).foldl
            (season_step fs us) (seas, res, nid)).1,
          ((build_season_map
            (List.insertionSort (fun a b => a.date ≤ b.date) tours)).foldl
            (season_step fs us) (seas, res, nid)).2.1,
          ((build_season_map
            (List.insertionSort (fun a b => a.date ≤ b.date) tours)).foldl
            (season_step fs us) (seas, res, nid)).2.2⟩ : SeasonDB)
        = ⟨tours, fs, us,
            ((build_season_map
              (List.insertionSort (fun a b => a.date ≤ b.date) tours)).foldl
              (season_step fs us)
              ((build_season_map
                (List.insertionSort (fun a b => a.date ≤ b.date) tours)).foldl
                (season_step fs us) (seas, res, nid))).1,
            ((build_season_map
              (List.insertionSort (fun a b => a.date ≤ b.date) tours)).foldl
              (season_step fs us)
              ((build_season_map
                (List.insertionSort (fun a b => a.date ≤ b.date) tours)).foldl
                (season_step fs us) (seas, res, nid))).2.1,
            ((build_season_map
              (List.insertionSort (fun a b => a.date ≤ b.date) tours)).foldl
              (season_step fs us)
              ((build_season_map
                (List.insertionSort (fun a b => a.date ≤ b.date) tours)).foldl
                (season_step fs us) (seas, res, nid))).2.2⟩ := by
      unfold migrate_seasons
      rw [if_neg hemp]
    rw [h2]
    have hfold : (build_season_map
        (List.insertionSort (fun a b => a.date ≤ b.date) tours)).foldl
        (season_step fs us)
        ((build_season_map
          (List.insertionSort (fun a b => a.date ≤ b.date) tours)).foldl
          (season_step fs us) (seas, res, nid))
        = (build_season_map
            (List.insertionSort (fun a b => a.date ≤ b.date) tours)).foldl
            (season_step fs us) (seas, res, nid) :=
      foldl_settled fs us _ _ (foldl_settles_all fs us _ (seas, res, nid))
    rw [hfold]

/-- Inserting `(s, tid)` into the season map yields an entry for `s`
containing `tid`. -/
theorem season_map_insert_self (acc : List (ℤ × List ℤ)) (s tid : ℤ) :
    ∃ e ∈ season_map_insert acc s tid, e.1 = s ∧ tid ∈ e.2 := by
  induction acc with
  | nil => exact ⟨(s, [tid]), by simp [season_map_insert]⟩
  | cons p rest ih =>
      obtain ⟨n, ids⟩ := p
      unfold season_map_insert
      by_cases hn : n = s
      · rw [if_pos hn]
        exact ⟨(n, ids ++ [tid]), List.mem_cons_self _ _, hn, by simp⟩
      · rw [if_neg hn]
        obtain ⟨e, he, hp⟩ := ih
        exact ⟨e, List.mem_cons_of_mem _ he, hp⟩

/-- Insertion into the season map preserves every already-present
membership fact. -/
theorem season_map_insert_preserves (acc : List (ℤ × List ℤ)) (s tid s' x : ℤ)
    (h : ∃ e ∈ acc, e.1 = s' ∧ x ∈ e.2) :
    ∃ e ∈ season_map_insert acc s tid, e.1 = s' ∧ x ∈ e.2 := by
  induction acc with
  | nil => simp at h
  | cons p rest ih =>
      obtain ⟨n, ids⟩ := p
      obtain ⟨e, he, he1, he2⟩ := h
      unfold season_map_insert
      by_cases hn : n = s
      · rw [if_pos hn]
        rcases List.mem_cons.1 he with rfl | hrest
        · exact ⟨(n, ids ++ [tid]), List.mem_cons_self _ _, he1,
            List.mem_append_left _ he2⟩
        · exact ⟨e, List.mem_cons_of_mem _ hrest, he1, he2⟩
      · rw [if_neg hn]
        rcases List.mem_cons.1 he with rfl | hrest
        · exact ⟨(n, ids), List.mem_cons_self _ _, he1, he2⟩
        · obtain ⟨e', he', hp'⟩ := ih ⟨e, hrest, he1, he2⟩
          exact ⟨e', List.mem_cons_of_mem _ he', hp'⟩

/-- The season-map fold preserves every already-present membership fact. -/
theorem build_fold_preserves (l : List STournament)
    (acc : List (ℤ × List ℤ)) (s' x : ℤ)
    (h : ∃ e ∈ acc, e.1 = s' ∧ x ∈ e.2) :
    ∃ e ∈ l.foldl
      (fun acc t =>
        let s := get_season_number t.date
        if s = 0 then acc else season_map_insert acc s t.id) acc,
      e.1 = s' ∧ x ∈ e.2 := by
  induction l generalizing acc with
  | nil => exact h
  | cons t rest ih =>
      rw [List.foldl_cons]
      apply ih
      dsimp only
      by_cases hs : get_season_number t.date = 0
      · rw [if_pos hs]
        exact h
      · rw [if_neg hs]
        exact season_map_insert_preserves acc _ t.id s' x h

/-- Every tournament with a non-zero season number — of any status — ends
up recorded in its season's id list. -/
theorem build_season_map_mem (ts : List STournament) (t : STournament)
    (hmem : t ∈ ts) (hs : get_season_number t.date ≠ 0) :
    ∃ e ∈ build_season_map ts,
      e.1 = get_season_number t.date ∧ t.id ∈ e.2 := by
  unfold build_season_map
  suffices hgen : ∀ (l : List STournament) (acc : List (ℤ × List ℤ)),
      t ∈ l →
      ∃ e ∈ l.foldl
        (fun acc t =>
          let s := get_season_number t.date
          if s = 0 then acc else season_map_insert acc s t.id) acc,
        e.1 = get_season_number t.date ∧ t.id ∈ e.2 by
    exact hgen ts [] hmem
  intro l
  induction l with
  | nil =>
      intro acc h
      simp at h
  | cons t0 rest ih =>
      intro acc h
      rw [List.foldl_cons]
      rcases List.mem_cons.1 h with rfl | hrest
      · apply build_fold_preserves
        dsimp only
        rw [if_neg hs]
        exact season_map_insert_self acc _ t.id
      · exact ih _ hrest

/-- Membership in the distinct-user fold: exactly the users contributing a
forecast (plus whatever seeded the accumulator). -/
theorem users_fold_mem (l : List Forecast) (acc : List ℤ) (x : ℤ) :
    x ∈ l.foldl
      (fun acc f => if f.user_id ∈ acc then acc else acc ++ [f.user_id]) acc
      ↔ x ∈ acc ∨ ∃ f ∈ l, f.user_id = x := by
  induction l generalizing acc with
  | nil => simp
  | cons f0 rest ih =>
      rw [List.foldl_cons, ih]
      constructor
      · rintro (hx | hx)
        · by_cases hf : f0.user_id ∈ acc
          · rw [if_pos hf] at hx
            exact Or.inl hx
          · rw [if_neg hf] at hx
            rcases List.mem_append.1 hx with h | h
            · exact Or.inl h
            · exact Or.inr ⟨f0, List.mem_cons_self _ _,
                (List.mem_singleton.1 h).symm⟩
        · obtain ⟨f, hf, he⟩ := hx
          exact Or.inr ⟨f, List.mem_cons_of_mem _ hf, he⟩
      · rintro (hx | ⟨f, hf, he⟩)
        · left
          by_cases hf : f0.user_id ∈ acc
          · rwa [if_pos hf]
          · rw [if_neg hf]
            exact List.mem_append_left _ hx
        · rcases List.mem_cons.1 hf with rfl | hf'
          · left
            by_cases hacc : f.user_id ∈ acc
            · rw [if_pos hacc]
              rwa [← he]
            · rw [if_neg hacc]
              subst he
              exact List.mem_append_right _ (List.mem_singleton.2 rfl)
          · exact Or.inr ⟨f, hf', he⟩

/-- Rows of the aggregation are exactly one per distinct contributing
user, carrying that user's group aggregates. -/
theorem stats_rows_mem (fs : List Forecast) (t_ids : List ℤ)
    (row : ℤ × Option ℤ × ℕ) :
    row ∈ stats_rows fs t_ids ↔
      ∃ u0, (u0 ∈ (fs.filter fun f => decide (f.tournament_id ∈ t_ids)).foldl
          (fun acc f => if f.user_id ∈ acc then acc else acc ++ [f.user_id])
          []) ∧
        row = (u0,
          sql_sum_points ((fs.filter fun f =>
            decide (f.tournament_id ∈ t_ids)).filter fun f =>
              decide (f.user_id = u0)),
          ((fs.filter fun f =>
            decide (f.tournament_id ∈ t_ids)).filter fun f =>
              decide (f.user_id = u0)).length) := by
  unfold stats_rows
  rw [(List.perm_insertionSort statsDescGE _).mem_iff, List.mem_map]
  constructor
  · rintro ⟨u0, hu0, rfl⟩
    exact ⟨u0, hu0, rfl⟩
  · rintro ⟨u0, hu0, rfl⟩
    exact ⟨u0, hu0, rfl⟩

/-- C4 amended: the season map buckets every tournament in the window
regardless of status, and the archival aggregation then has exactly one
row per user with any forecast on those tournaments — the row counting all
of that user's forecasts there and summing only the non-null
`points_earned` (null, i.e. unfinalized, scores contribute nothing to the
sum but the forecast still counts and the user is still snapshotted). -/
theorem season_aggregation_all_statuses (ts : List STournament)
    (t : STournament) (fs : List Forecast) (t_ids : List ℤ) (u : ℤ)
    (hmem : t ∈ ts) (hs : get_season_number t.date ≠ 0) :
    (∃ e ∈ build_season_map ts,
      e.1 = get_season_number t.date ∧ t.id ∈ e.2) ∧
    ((∃ row ∈ stats_rows fs t_ids, row.1 = u) ↔
      ∃ f ∈ fs, f.tournament_id ∈ t_ids ∧ f.user_id = u) ∧
    (∀ row ∈ stats_rows fs t_ids,
      row.2.1 = sql_sum_points ((fs.filter fun f =>
        decide (f.tournament_id ∈ t_ids)).filter fun f =>
          decide (f.user_id = row.1)) ∧
      row.2.2 = ((fs.filter fun f =>
        decide (f.tournament_id ∈ t_ids)).filter fun f =>
          decide (f.user_id = row.1)).length) := by
  refine ⟨build_season_map_mem ts t hmem hs, ?_, ?_⟩
  · constructor
    · rintro ⟨row, hrow, rfl⟩
      obtain ⟨u0, hu0, rfl⟩ := (stats_rows_mem fs t_ids row).1 hrow
      obtain ⟨f, hf, hfu⟩ := ((users_fold_mem _ [] u0).1 hu0).resolve_left
        (by simp)
      have hf' := List.mem_filter.1 hf
      exact ⟨f, hf'.1, by simpa using hf'.2, hfu⟩
    · rintro ⟨f, hf, hft, hfu⟩
      refine ⟨(u,
        sql_sum_points ((fs.filter fun f =>
          decide (f.tournament_id ∈ t_ids)).filter fun f =>
            decide (f.user_id = u)),
        ((fs.filter fun f =>
          decide (f.tournament_id ∈ t_ids)).filter fun f =>
            decide (f.user_id = u)).length), ?_, rfl⟩
      rw [stats_rows_mem fs t_ids]
      refine ⟨u, ?_, rfl⟩
      rw [users_fold_mem]
      exact Or.inr ⟨f, List.mem_filter.2 ⟨hf, by simpa using hft⟩, hfu⟩
  · intro row hrow
    obtain ⟨u0, _, rfl⟩ := (stats_rows_mem fs t_ids row).1 hrow
    exact ⟨rfl, rfl⟩

/-- Witness for the amended C4 on the concrete database `c4db` (one Open
tournament, one unscored forecast by user 7). -/
theorem season_aggregation_all_statuses_witness :
    ((⟨1, FIRST_SEASON_START, TournamentStatus.OPEN⟩ : STournament)
        ∈ c4db.tournaments) ∧
    get_season_number
      (⟨1, FIRST_SEASON_START, TournamentStatus.OPEN⟩ : STournament).date
        ≠ 0 ∧
    ((∃ e ∈ build_season_map c4db.tournaments,
        e.1 = get_season_number
          (⟨1, FIRST_SEASON_START, TournamentStatus.OPEN⟩ : STournament).date
          ∧ (1 : ℤ) ∈ e.2) ∧
      ((∃ row ∈ stats_rows c4db.forecasts [1], row.1 = 7) ↔
        ∃ f ∈ c4db.forecasts, f.tournament_id ∈ ([1] : List ℤ) ∧
          f.user_id = 7) ∧
      (∀ row ∈ stats_rows c4db.forecasts [1],
        row.2.1 = sql_sum_points ((c4db.forecasts.filter fun f =>
          decide (f.tournament_id ∈ ([1] : List ℤ))).filter fun f =>
            decide (f.user_id = row.1)) ∧
        row.2.2 = ((c4db.forecasts.filter fun f =>
          decide (f.tournament_id ∈ ([1] : List ℤ))).filter fun f =>
            decide (f.user_id = row.1)).length)) :=
  ⟨by decide, by decide,
    season_aggregation_all_statuses c4db.tournaments
      ⟨1, FIRST_SEASON_START, TournamentStatus.OPEN⟩ c4db.forecasts [1] 7
      (by decide) (by decide)⟩
